import Mathlib

/-!
Shallow embedding of `dqnroute/router.py` (classes `Router`, `LinkStateRouter`,
`QRouter`, `SimpleQRouter` and the helper `dict_min`).

Modelling conventions:
* Python `float` times, sizes, bandwidths, latencies and Q-values are embedded
  as exact rationals `ℚ` (the spec states all formulas over real arithmetic).
* Python `dict`s are association lists; a read of a missing key is `none`
  (Python raises `KeyError`), assignment `d[k] = x` overwrites the entry when
  the key is present and appends it otherwise (`dset`), `del d[k]` is `derase`.
* Node addresses (`self.addr`, keys of `network`) and thespian actor
  references (`self.myAddress`, values of `network`) are both embedded as
  natural numbers; `network_inv` maps an actor reference back to an address
  (the Python code keys it by `str(ref)`).
* Method overriding (`receivePackage`, `routePackage`, `sendToBrokenLink`,
  `breakLink`, `restoreLink`, the `isInitialized` refinement and the
  `_currentStateData` logging hook) is embedded as a `Strategy` record of the
  subclass hooks over the subclass state `σ`; in the source every hook only
  mutates subclass state and emits service-message sends, which the hook types
  reflect.
* Exceptions terminate `processEvent` with an `RErr` value and no successor
  state, matching the fact that an uncaught Python exception aborts the
  handler before the interpreter applies any of the remaining mutations.
* Side effects (`sendEvent`, `sendServiceMsg`, `send` to the overlord,
  `print`) are collected in an `Output` list in execution order.
-/

namespace DQN

abbrev Addr := Nat
abbrev ARef := Nat

/-- Python dict read `d[k]`: `none` models a `KeyError`. -/
def dlookup {α : Type} (k : Nat) : List (Nat × α) → Option α
  | [] => none
  | (j, v) :: d => if k = j then some v else dlookup k d

/-- Python dict write `d[k] = v`: overwrite in place, else append. -/
def dset {α : Type} (k : Nat) (v : α) : List (Nat × α) → List (Nat × α)
  | [] => [(k, v)]
  | (j, w) :: d => if k = j then (k, v) :: d else (j, w) :: dset k v d

/-- Python `del d[k]`: drop the first entry with key `k`. -/
def derase {α : Type} (k : Nat) : List (Nat × α) → List (Nat × α)
  | [] => []
  | (j, w) :: d => if k = j then d else (j, w) :: derase k d

/-- The key list of a dict (`d.keys()`). -/
def dkeys {α : Type} (d : List (Nat × α)) : List Nat := d.map Prod.fst

/-- The payload routed through the network (`messages.Package` as used by
`router.py`): `route` is the appended trace (`pkg.route_add` data rows). -/
structure Pkg where
  id : Nat
  dst : Addr
  size : ℚ
  route : List (List ℚ)
deriving DecidableEq, Repr

/-- The events dispatched by `Router.processEvent` (the `else: pass` catch-all
branch is `other`). -/
inductive Event where
  | incomingPkg (time : ℚ) (sender : ARef) (pkg : Pkg)
  | processPkg (time : ℚ) (sender : ARef) (pkg : Pkg)
  | linkBreak (neighbor : Addr)
  | linkRestore (neighbor : Addr)
  | other
deriving DecidableEq, Repr

/-- One entry of `self.link_states`. -/
structure LinkInfo where
  transfer_time : ℚ
  alive : Bool
deriving DecidableEq, Repr

/-- One entry of `self.neighbors`. -/
structure NeighborInfo where
  latency : ℚ
  bandwidth : ℚ
deriving DecidableEq, Repr

/-- The base `Router` fields (plus the actor's `current_time` and local
`event_queue` inherited from `TimeActor`).  `overlord = none` is the
pre-init state. -/
structure RouterState where
  overlord : Option ARef
  addr : Addr
  myAddress : ARef
  network : List (Addr × ARef)
  network_inv : List (ARef × Addr)
  neighbors : List (Addr × NeighborInfo)
  pkg_process_delay : ℚ
  queue_time : ℚ
  link_states : List (Addr × LinkInfo)
  full_log : Bool
  current_time : ℚ
  event_queue : List Event
deriving DecidableEq, Repr

/-- Service messages exchanged outside the packet stream:
`SimpleRewardMsg(pkg_id, cur_time, estimate, dst)` and
`LinkStateAnnouncement(origin, seq, link state snapshot)`. -/
inductive ServiceMsg where
  | simpleReward (pkg_id : Nat) (cur_time : ℚ) (estimate : ℚ) (dst : Addr)
  | lsAnnouncement (origin : Addr) (seq : Nat) (links : List (Addr × Bool))
deriving DecidableEq, Repr

/-- Observable effects of one `processEvent` call, in execution order:
`sendEvent` to another actor, `sendServiceMsg`, the completion report
`send(overlord, PkgDoneMsg(time, myAddress, pkg))`, and `print`. -/
inductive Output where
  | sendEvent (target : ARef) (ev : Event)
  | sendService (target : ARef) (msg : ServiceMsg)
  | pkgDone (time : ℚ) (router : ARef) (pkg : Pkg)
  | logLine
deriving DecidableEq, Repr

/-- Python exceptions that can abort a handler: `RouterNotInitialized`,
`KeyError` (missing dict key), `TypeError` (subscripting the int `0`). -/
inductive RErr where
  | notInitialized
  | keyError
  | typeError
deriving DecidableEq, Repr

/-- The subclass hooks that `Router.processEvent` dispatches to (the methods
`Router` declares with a `pass` body and its subclasses override), acting on
the subclass state `σ`.  In the source every hook only reads the base state,
mutates subclass state and emits `sendServiceMsg` calls; `none` models a hook
raising (`KeyError`).  `extraInit` is the extra conjunct a subclass adds to
`isInitialized` (`LinkStateRouter` requires full announcement coverage);
`stateData` is `_currentStateData` used by the `full_log` trace branch. -/
structure Strategy (σ : Type) where
  receivePackage : RouterState → σ → ARef → Pkg → Option (σ × List (ARef × ServiceMsg))
  routePackage : RouterState → σ → Pkg → Option (σ × Addr)
  sendToBrokenLink : RouterState → σ → Pkg → Option (σ × List (ARef × ServiceMsg))
  breakLink : RouterState → σ → Addr → Option (σ × List (ARef × ServiceMsg))
  restoreLink : RouterState → σ → Addr → Option (σ × List (ARef × ServiceMsg))
  extraInit : RouterState → σ → Bool
  stateData : RouterState → σ → Pkg → List ℚ

/-- `Router.isInitialized` (`self.overlord is not None`) together with the
subclass refinement. -/
def isInitialized {σ : Type} (strat : Strategy σ) (s : RouterState) (st : σ) : Bool :=
  s.overlord.isSome && strat.extraInit s st

/-- Lift a list of `sendServiceMsg` calls into the output trace. -/
def serviceOuts (sends : List (ARef × ServiceMsg)) : List Output :=
  sends.map fun p => Output.sendService p.1 p.2

/-- The trace row appended by `ProcessPkgEvent` handling: the strategy's
feature snapshot when `full_log`, else `[self.current_time, self.addr]`
(the `['time', 'cur_node']` row). -/
def traceRow {σ : Type} (strat : Strategy σ) (s : RouterState) (st : σ) (pkg : Pkg) : List ℚ :=
  if s.full_log then strat.stateData s st pkg else [s.current_time, (s.addr : ℚ)]

/-- `pkg.route_add(...)` in `ProcessPkgEvent` handling: append the trace
row to the package (the package object is mutated in place in Python, so the
reward message built beforehand sees the old trace and everything after sees
the new one). -/
def routeAdd {σ : Type} (strat : Strategy σ) (s : RouterState) (st : σ) (pkg : Pkg) : Pkg :=
  { pkg with route := pkg.route ++ [traceRow strat s st pkg] }

/-- `Router.processEvent`, returning the successor base state, successor
subclass state and the emitted outputs, or the exception aborting it. -/
def processEvent {σ : Type} (strat : Strategy σ) (s : RouterState) (st : σ)
    (ev : Event) : Except RErr (RouterState × σ × List Output) :=
  if ¬ isInitialized strat s st then .error .notInitialized else
  match ev with
  | .incomingPkg _t sender pkg =>
    let qt := max s.current_time s.queue_time + s.pkg_process_delay
    .ok ({ s with
            queue_time := qt,
            event_queue := s.event_queue ++ [Event.processPkg qt sender pkg] },
         st, [])
  | .processPkg _t sender pkg =>
    match strat.receivePackage s st sender pkg with
    | none => .error .keyError
    | some (st₁, sends) =>
      let pkg' := routeAdd strat s st₁ pkg
      let outs := serviceOuts sends ++ [Output.logLine]
      if pkg'.dst = s.addr then
        .ok (s, st₁, outs ++ [Output.pkgDone s.current_time s.myAddress pkg'])
      else
        match strat.routePackage s st₁ pkg' with
        | none => .error .keyError
        | some (st₂, best) =>
          match dlookup best s.link_states with
          | none => .error .keyError
          | some ls =>
            if ls.alive then
              match dlookup best s.network, dlookup best s.neighbors with
              | some target, some nd =>
                let tstart := max s.current_time ls.transfer_time
                let tend := tstart + pkg'.size / nd.bandwidth
                let fin := tend + nd.latency
                .ok ({ s with
                        link_states :=
                          dset best ({ ls with transfer_time := tend }) s.link_states },
                     st₂,
                     outs ++ [Output.sendEvent target (Event.incomingPkg fin s.myAddress pkg')])
              | _, _ => .error .keyError
            else
              match strat.sendToBrokenLink s st₂ pkg' with
              | none => .error .keyError
              | some (st₃, sends₂) => .ok (s, st₃, outs ++ serviceOuts sends₂)
  | .linkBreak n =>
    match dlookup n s.link_states with
    | none => .error .keyError
    | some ls =>
      let s' := { s with link_states := dset n ({ ls with alive := false }) s.link_states }
      match strat.breakLink s' st n with
      | none => .error .keyError
      | some (st₁, sends) => .ok (s', st₁, serviceOuts sends)
  | .linkRestore n =>
    match dlookup n s.link_states with
    | none => .error .keyError
    | some ls =>
      let s' := { s with link_states := dset n ({ ls with alive := true }) s.link_states }
      match strat.restoreLink s' st n with
      | none => .error .keyError
      | some (st₁, sends) => .ok (s', st₁, serviceOuts sends)
  | .other => .ok (s, st, [])

/-! ## QRouter / SimpleQRouter -/

/-- A Q-table: destination address → (neighbor address → value estimate),
`self.Q`. -/
abbrev QTable := List (Addr × List (Addr × ℚ))

/-- The `QRouter`/`SimpleQRouter` fields: `self.Q`, `self.learning_rate`,
`self.broken_link_Qs`, and `self.reward_pending` mapping a packet id to the
`getState` pair `(self.current_time, pkg.dst)` recorded at send time. -/
structure SQState where
  Q : QTable
  learning_rate : ℚ
  broken_link_Qs : List (Addr × List (Addr × ℚ))
  reward_pending : List (Nat × (ℚ × Addr))
deriving DecidableEq, Repr

/-- `dict_min(dct) = min(dct.items(), key=lambda x: x[1])`: the first entry
with minimal value (Python `min` keeps the earliest among ties), `none` for
the empty dict (Python raises `ValueError`). -/
def dict_min : List (Addr × ℚ) → Option (Addr × ℚ)
  | [] => none
  | x :: xs => some (xs.foldl (fun acc y => if y.2 < acc.2 then y else acc) x)

/-- Nested read `self.Q[n][v]`. -/
def qget (n v : Addr) (Q : QTable) : Option ℚ :=
  (dlookup n Q).bind (dlookup v)

/-- Nested write `self.Q[n][v] = x`: the outer key must exist (else the read
`self.Q[n]` raises `KeyError`); the inner assignment inserts or overwrites. -/
def qset (n v : Addr) (x : ℚ) (Q : QTable) : Option QTable :=
  (dlookup n Q).map fun row => dset n (dset v x row) Q

namespace SimpleQRouter

/-- `SimpleQRouter.mkRewardMsg`: estimate `0` when this node is the
destination, else the minimal Q-value for the destination; the message also
carries `self.current_time`, the packet id and the destination. -/
def mkRewardMsg (s : RouterState) (st : SQState) (pkg : Pkg) : Option ServiceMsg :=
  if s.addr = pkg.dst then
    some (ServiceMsg.simpleReward pkg.id s.current_time 0 pkg.dst)
  else
    (dlookup pkg.dst st.Q).bind fun row =>
      (dict_min row).map fun p =>
        ServiceMsg.simpleReward pkg.id s.current_time p.2 pkg.dst

/-- `QRouter.receivePackage`: immediately send the reward message back to the
forwarding sender. -/
def receivePackage (s : RouterState) (st : SQState) (sender : ARef) (pkg : Pkg) :
    Option (SQState × List (ARef × ServiceMsg)) :=
  (mkRewardMsg s st pkg).map fun m => (st, [(sender, m)])

/-- `SimpleQRouter.getState`. -/
def getState (s : RouterState) (pkg : Pkg) : ℚ × Addr :=
  (s.current_time, pkg.dst)

/-- `SimpleQRouter.act`: greedy argmin neighbor for the destination `d`. -/
def act (st : SQState) (d : Addr) : Option Addr :=
  ((dlookup d st.Q).bind dict_min).map Prod.fst

/-- `QRouter.routePackage`: record the pending context under the packet id
(last write wins), then pick `act`'s neighbor. -/
def routePackage (s : RouterState) (st : SQState) (pkg : Pkg) :
    Option (SQState × Addr) :=
  let st' := { st with reward_pending := dset pkg.id (getState s pkg) st.reward_pending }
  (act st' pkg.dst).map fun n => (st', n)

/-- The loop body of `SimpleQRouter.breakLink`: for each destination `n` in
`network.keys()`, stash `Q[n][v]` and overwrite it with the sentinel
`100500`. -/
def breakLoop (v : Addr) : List Addr → QTable → List (Addr × ℚ) →
    Option (QTable × List (Addr × ℚ))
  | [], Q, stash => some (Q, stash)
  | n :: ns, Q, stash =>
    match qget n v Q with
    | none => none
    | some q =>
      match qset n v 100500 Q with
      | none => none
      | some Q' => breakLoop v ns Q' (dset n q stash)

/-- `SimpleQRouter.breakLink`. -/
def breakLink (s : RouterState) (st : SQState) (v : Addr) :
    Option (SQState × List (ARef × ServiceMsg)) :=
  (breakLoop v (dkeys s.network) st.Q []).map fun r =>
    ({ st with Q := r.1, broken_link_Qs := dset v r.2 st.broken_link_Qs }, [])

/-- The loop body of `SimpleQRouter.restoreLink`: write each stashed value
back into `Q[n][v]`. -/
def restoreLoop (v : Addr) : List (Addr × ℚ) → QTable → Option QTable
  | [], Q => some Q
  | (n, val) :: rest, Q =>
    match qset n v val Q with
    | none => none
    | some Q' => restoreLoop v rest Q'

/-- `SimpleQRouter.restoreLink`: `self.broken_link_Qs[v]` (KeyError when no
stash is pending), write the stash back, delete the stash. -/
def restoreLink (_s : RouterState) (st : SQState) (v : Addr) :
    Option (SQState × List (ARef × ServiceMsg)) :=
  (dlookup v st.broken_link_Qs).bind fun broken =>
    (restoreLoop v broken st.Q).map fun Q' =>
      ({ st with Q := Q', broken_link_Qs := derase v st.broken_link_Qs }, [])

/-- `Router.sendToBrokenLink`: inherited `pass` body (no override). -/
def sendToBrokenLink (_s : RouterState) (st : SQState) (_pkg : Pkg) :
    Option (SQState × List (ARef × ServiceMsg)) :=
  some (st, [])

/-- `SimpleQRouter._currentStateData`: `[self.current_time, pkg.id]`. -/
def stateData (s : RouterState) (_st : SQState) (pkg : Pkg) : List ℚ :=
  [s.current_time, (pkg.id : ℚ)]

/-- `SimpleQRouter.mkSample`.  The caller passes `prev_state = 0` (the int)
when the packet id was missing from `reward_pending`, embedded as `none`:
`sent_time = prev_state[0]` then raises `TypeError` because the int `0` is
not subscriptable.  The sender address read `self.network_inv[str(sender)]`
happens first and can raise `KeyError`. -/
def mkSample (s : RouterState) (msg : ServiceMsg) (prev_state : Option (ℚ × Addr))
    (sender : ARef) : Except RErr (Addr × Addr × ℚ) :=
  match msg with
  | .simpleReward _pkg_id cur_time estimate dst =>
    match dlookup sender s.network_inv with
    | none => .error .keyError
    | some sender_addr =>
      match prev_state with
      | none => .error .typeError
      | some st₀ => .ok (dst, sender_addr, estimate + (cur_time - st₀.1))
  | _ => .error .typeError

/-- `SimpleQRouter.observe`: `Q[dst][sender_addr] += learning_rate *
(new_estimate - Q[dst][sender_addr])`. -/
def observe (st : SQState) (sample : Addr × Addr × ℚ) : Option SQState :=
  match qget sample.1 sample.2.1 st.Q with
  | none => none
  | some q =>
    (qset sample.1 sample.2.1 (q + st.learning_rate * (sample.2.2 - q)) st.Q).map
      fun Q' => { st with Q := Q' }

/-- A sequence of `observe` updates (the rewards processed while a link is
broken). -/
def observeList : List (Addr × Addr × ℚ) → SQState → Option SQState
  | [], st => some st
  | smp :: rest, st => (observe st smp).bind (observeList rest)

/-- `QRouter.receiveServiceMsg` on a `RewardMsg`, instantiated with
`SimpleQRouter.mkSample`/`observe`: look the pending context up (on
`KeyError` the code logs "Unexpected reward msg!" and keeps the fallback
`prev_state = 0`), then unconditionally `observe(mkSample(...))`. -/
def receiveServiceMsg (s : RouterState) (st : SQState) (msg : ServiceMsg)
    (sender : ARef) : Except RErr (SQState × List Output) :=
  match msg with
  | .simpleReward pkg_id _ _ _ =>
    let prev_state := dlookup pkg_id st.reward_pending
    let logs : List Output := if (dlookup pkg_id st.reward_pending).isNone
      then [Output.logLine] else []
    match mkSample s msg prev_state sender with
    | .error e => .error e
    | .ok sample =>
      match observe st sample with
      | none => .error .keyError
      | some st' => .ok (st', logs)
  | _ => .ok (st, [])

end SimpleQRouter

/-- The `SimpleQRouter` subclass hooks assembled into a `Strategy`
(`QRouter` adds no `isInitialized` refinement). -/
def simpleQStrategy : Strategy SQState where
  receivePackage := SimpleQRouter.receivePackage
  routePackage := SimpleQRouter.routePackage
  sendToBrokenLink := SimpleQRouter.sendToBrokenLink
  breakLink := SimpleQRouter.breakLink
  restoreLink := SimpleQRouter.restoreLink
  extraInit := fun _ _ => true
  stateData := SimpleQRouter.stateData

/-! ## LinkStateRouter -/

/-- Modelled from the spec: the `LinkStateHolder` mixin state from
`router_mixins` (not under `src/`): the local announcement sequence counter,
the highest sequence number seen per origin, and the per-origin link-state
snapshots making up the derived topology graph. -/
structure LSState where
  seq_num : Nat
  announcements : List (Addr × Nat)
  graphInfo : List (Addr × List (Addr × Bool))
deriving DecidableEq, Repr

/-- Modelled from the spec: `LinkStateHolder.processLSAnnouncement` from
`router_mixins` (not under `src/`): accept an announcement iff its sequence
number is strictly newer than the last seen for its origin (an unseen origin
is always newer); when accepted, record the sequence number and apply the
snapshot to the local topology graph; return whether it was accepted. -/
def processLSAnnouncement (st : LSState) (origin : Addr) (seq : Nat)
    (links : List (Addr × Bool)) : Bool × LSState :=
  let accept : Bool :=
    match dlookup origin st.announcements with
    | none => true
    | some last => last < seq
  if accept then
    (true, { st with announcements := dset origin seq st.announcements,
                     graphInfo := dset origin links st.graphInfo })
  else (false, st)

/-- The loop of `LinkStateRouter._broadcastAnnouncement`: the actor
references `self.network[n]` of the neighbors `n` with `sender !=
self.network[n]` (`none` when some neighbor is missing from `network`, a
`KeyError`). -/
def broadcastTargets (s : RouterState) (sender : ARef) : List Addr → Option (List ARef)
  | [] => some []
  | n :: ns =>
    match dlookup n s.network with
    | none => none
    | some ref =>
      (broadcastTargets s sender ns).map fun rest =>
        if sender ≠ ref then ref :: rest else rest

/-- `LinkStateRouter._broadcastAnnouncement`: send the announcement to every
neighbor whose actor reference differs from `sender`. -/
def broadcastAnnouncement (s : RouterState) (msg : ServiceMsg) (sender : ARef) :
    Option (List (ARef × ServiceMsg)) :=
  (broadcastTargets s sender (dkeys s.neighbors)).map (List.map fun r => (r, msg))

namespace LinkStateRouter

/-- `LinkStateRouter.receiveServiceMsg`: process a `LinkStateAnnouncement`
and reflood it (to all neighbors but the one it came from) exactly when it
was accepted. -/
def receiveServiceMsg (s : RouterState) (st : LSState) (msg : ServiceMsg)
    (sender : ARef) : Option (LSState × List (ARef × ServiceMsg)) :=
  match msg with
  | .lsAnnouncement origin seq links =>
    let res := processLSAnnouncement st origin seq links
    if res.1 then
      (broadcastAnnouncement s msg sender).map fun sends => (res.2, sends)
    else some (res.2, [])
  | _ => some (st, [])

end LinkStateRouter

/-- Whether an output is the completion report to the overlord. -/
def Output.isPkgDone : Output → Bool
  | .pkgDone _ _ _ => true
  | _ => false

/-- Whether an output forwards an event to another actor's queue. -/
def Output.isSendEvent : Output → Bool
  | .sendEvent _ _ => true
  | _ => false

/-! ## Concrete fixtures -/

/-- A two-node fixture: this router has address 0 (actor reference 10) and
one neighbor, address 1 (actor reference 11), with latency 1 and
bandwidth 1. -/
def sampleRouter : RouterState where
  overlord := some 99
  addr := 0
  myAddress := 10
  network := [(0, 10), (1, 11)]
  network_inv := [(10, 0), (11, 1)]
  neighbors := [(1, ⟨1, 1⟩)]
  pkg_process_delay := 0
  queue_time := 0
  link_states := [(1, ⟨0, true⟩)]
  full_log := false
  current_time := 0
  event_queue := []

/-- The matching `SimpleQRouter` state right after bootstrap
(`Q[n][n] = 40`, other entries `100500`). -/
def sampleQ : SQState where
  Q := [(0, [(1, 100500)]), (1, [(1, 40)])]
  learning_rate := 1/2
  broken_link_Qs := []
  reward_pending := []

/-! ## Dictionary lemmas -/

theorem dlookup_dset_self {α : Type} (k : Nat) (v : α) (d : List (Nat × α)) :
    dlookup k (dset k v d) = some v := by
  induction d with
  | nil => simp [dset, dlookup]
  | cons hd tl ih =>
    obtain ⟨j, w⟩ := hd
    by_cases h : k = j <;> simp [dset, dlookup, h, ih]

theorem dlookup_dset_of_ne {α : Type} {k j : Nat} (h : k ≠ j) (v : α)
    (d : List (Nat × α)) : dlookup k (dset j v d) = dlookup k d := by
  induction d with
  | nil => simp [dset, dlookup, h]
  | cons hd tl ih =>
    obtain ⟨i, w⟩ := hd
    by_cases hj : j = i
    · subst hj
      simp [dset, dlookup, h, ih]
    · by_cases hk : k = i <;> simp [dset, dlookup, hj, hk, ih]

theorem dkeys_cons {α : Type} (j : Nat) (w : α) (d : List (Nat × α)) :
    dkeys ((j, w) :: d) = j :: dkeys d := rfl

theorem mem_dkeys_dset {α : Type} (a k : Nat) (v : α) (d : List (Nat × α)) :
    a ∈ dkeys (dset k v d) ↔ a = k ∨ a ∈ dkeys d := by
  induction d with
  | nil => simp [dset, dkeys]
  | cons hd tl ih =>
    obtain ⟨j, w⟩ := hd
    by_cases h : k = j
    · subst h
      rw [show dset k v ((k, w) :: tl) = (k, v) :: tl from by simp [dset]]
      simp [dkeys_cons]
    · rw [show dset k v ((j, w) :: tl) = (j, w) :: dset k v tl from by
        simp [dset, h]]
      rw [dkeys_cons, dkeys_cons]
      simp only [List.mem_cons, ih]
      tauto

theorem nodup_dkeys_dset {α : Type} (k : Nat) (v : α) (d : List (Nat × α))
    (hd : (dkeys d).Nodup) : (dkeys (dset k v d)).Nodup := by
  induction d with
  | nil => simp [dset, dkeys]
  | cons hdp tl ih =>
    obtain ⟨j, w⟩ := hdp
    rw [dkeys_cons, List.nodup_cons] at hd
    by_cases h : k = j
    · subst h
      rw [show dset k v ((k, w) :: tl) = (k, v) :: tl from by simp [dset]]
      rw [dkeys_cons, List.nodup_cons]
      exact hd
    · rw [show dset k v ((j, w) :: tl) = (j, w) :: dset k v tl from by
        simp [dset, h]]
      rw [dkeys_cons, List.nodup_cons]
      refine ⟨?_, ih hd.2⟩
      intro hmem
      rcases (mem_dkeys_dset j k v tl).1 hmem with h' | h'
      · exact h h'.symm
      · exact hd.1 h'

/-! ## dict_min lemmas -/

theorem foldl_min_spec (x : Addr × ℚ) (xs : List (Addr × ℚ)) :
    (xs.foldl (fun acc y => if y.2 < acc.2 then y else acc) x) ∈ x :: xs ∧
    (xs.foldl (fun acc y => if y.2 < acc.2 then y else acc) x).2 ≤ x.2 ∧
    ∀ e ∈ xs, (xs.foldl (fun acc y => if y.2 < acc.2 then y else acc) x).2 ≤ e.2 := by
  induction xs generalizing x with
  | nil => simp
  | cons y ys ih =>
    simp only [List.foldl_cons]
    by_cases h : y.2 < x.2
    · simp only [if_pos h]
      obtain ⟨m1, m2, m3⟩ := ih y
      refine ⟨List.mem_cons_of_mem x m1, le_trans m2 (le_of_lt h), ?_⟩
      intro e he
      rcases List.mem_cons.1 he with h' | h'
      · rw [h']; exact m2
      · exact m3 e h'
    · simp only [if_neg h]
      obtain ⟨m1, m2, m3⟩ := ih x
      refine ⟨?_, m2, ?_⟩
      · rcases List.mem_cons.1 m1 with h' | h'
        · rw [h']; exact List.mem_cons_self x (y :: ys)
        · exact List.mem_cons_of_mem x (List.mem_cons_of_mem y h')
      · intro e he
        rcases List.mem_cons.1 he with h' | h'
        · rw [h']; exact le_trans m2 (le_of_not_lt h)
        · exact m3 e h'

/-- `dict_min` returns an entry of the dict achieving the minimal value. -/
theorem dict_min_spec {l : List (Addr × ℚ)} {p : Addr × ℚ}
    (h : dict_min l = some p) : p ∈ l ∧ ∀ e ∈ l, p.2 ≤ e.2 := by
  match l with
  | [] => simp [dict_min] at h
  | x :: xs =>
    simp only [dict_min, Option.some_inj] at h
    subst h
    obtain ⟨hmem, hx, hall⟩ := foldl_min_spec x xs
    refine ⟨hmem, ?_⟩
    intro e he
    rcases List.mem_cons.1 he with h' | h'
    · rw [h']; exact hx
    · exact hall e h'

/-! ## qget / qset lemmas -/

theorem qset_isSome_iff (n v : Addr) (x : ℚ) (Q : QTable) :
    (qset n v x Q).isSome ↔ (dlookup n Q).isSome := by
  cases h : dlookup n Q <;> simp [qset, h]

theorem qget_qset_self {n v : Addr} {x : ℚ} {Q Q' : QTable}
    (h : qset n v x Q = some Q') : qget n v Q' = some x := by
  cases hrow : dlookup n Q with
  | none => simp [qset, hrow] at h
  | some row =>
    simp only [qset, hrow, Option.map_some', Option.some_inj] at h
    subst h
    simp [qget, dlookup_dset_self]

theorem qget_qset_ne {n v m w : Addr} {x : ℚ} {Q Q' : QTable}
    (hnm : m ≠ n) (h : qset n v x Q = some Q') : qget m w Q' = qget m w Q := by
  cases hrow : dlookup n Q with
  | none => simp [qset, hrow] at h
  | some row =>
    simp only [qset, hrow, Option.map_some', Option.some_inj] at h
    subst h
    simp [qget, dlookup_dset_of_ne hnm]

theorem qget_isSome_qset {n v m : Addr} {x : ℚ} {Q Q' : QTable}
    (h : qset m v x Q = some Q') (hs : (qget n v Q).isSome) :
    (qget n v Q').isSome := by
  by_cases hnm : n = m
  · subst hnm
    simp [qget_qset_self h]
  · rw [qget_qset_ne hnm h]
    exact hs

/-! ## breakLoop / restoreLoop lemmas -/

theorem breakLoop_notmem {v : Addr} {net : List Addr} {Q Q' : QTable}
    {stash stash' : List (Addr × ℚ)} {n : Addr}
    (h : SimpleQRouter.breakLoop v net Q stash = some (Q', stash'))
    (hn : n ∉ net) :
    dlookup n stash' = dlookup n stash ∧ qget n v Q' = qget n v Q := by
  induction net generalizing Q stash with
  | nil => simp_all [SimpleQRouter.breakLoop]
  | cons m ns ih =>
    simp only [SimpleQRouter.breakLoop] at h
    cases hq : qget m v Q with
    | none => simp [hq] at h
    | some q =>
      simp only [hq] at h
      cases hset : qset m v 100500 Q with
      | none => simp [hset] at h
      | some Q₁ =>
        simp only [hset] at h
        have hnm : n ≠ m := fun he => hn (he ▸ List.mem_cons_self m ns)
        have hns : n ∉ ns := fun he => hn (List.mem_cons_of_mem m he)
        obtain ⟨h1, h2⟩ := ih h hns
        refine ⟨?_, ?_⟩
        · rw [h1, dlookup_dset_of_ne hnm]
        · rw [h2, qget_qset_ne hnm hset]

theorem breakLoop_mem {v : Addr} {net : List Addr} {Q Q' : QTable}
    {stash stash' : List (Addr × ℚ)} {n : Addr}
    (hnd : net.Nodup)
    (h : SimpleQRouter.breakLoop v net Q stash = some (Q', stash'))
    (hn : n ∈ net) :
    dlookup n stash' = qget n v Q ∧ qget n v Q' = some 100500 := by
  induction net generalizing Q stash with
  | nil => simp at hn
  | cons m ns ih =>
    simp only [SimpleQRouter.breakLoop] at h
    cases hq : qget m v Q with
    | none => simp [hq] at h
    | some q =>
      simp only [hq] at h
      cases hset : qset m v 100500 Q with
      | none => simp [hset] at h
      | some Q₁ =>
        simp only [hset] at h
        rw [List.nodup_cons] at hnd
        rcases List.mem_cons.1 hn with he | hns
        · subst he
          obtain ⟨h1, h2⟩ := breakLoop_notmem h hnd.1
          refine ⟨?_, ?_⟩
          · rw [h1, dlookup_dset_self, hq]
          · rw [h2, qget_qset_self hset]
        · have hnm : n ≠ m := fun he => hnd.1 (he ▸ hns)
          obtain ⟨h1, h2⟩ := ih hnd.2 h hns
          refine ⟨?_, h2⟩
          rw [h1, qget_qset_ne hnm hset]

theorem breakLoop_isSome {v : Addr} {net : List Addr} {Q : QTable}
    {stash : List (Addr × ℚ)}
    (h : ∀ n ∈ net, (qget n v Q).isSome) :
    (SimpleQRouter.breakLoop v net Q stash).isSome := by
  induction net generalizing Q stash with
  | nil => simp [SimpleQRouter.breakLoop]
  | cons m ns ih =>
    have hm := h m (List.mem_cons_self m ns)
    cases hq : qget m v Q with
    | none => rw [hq] at hm; simp at hm
    | some q =>
      have hset : (qset m v 100500 Q).isSome := by
        rw [qset_isSome_iff]
        cases hd : dlookup m Q
        · simp [qget, hd] at hq
        · simp
      cases hset' : qset m v 100500 Q with
      | none => rw [hset'] at hset; simp at hset
      | some Q₁ =>
        simp only [SimpleQRouter.breakLoop, hq, hset']
        exact ih fun n hn => qget_isSome_qset hset' (h n (List.mem_cons_of_mem m hn))

theorem breakLoop_keys {v : Addr} {net : List Addr} {Q Q' : QTable}
    {stash stash' : List (Addr × ℚ)}
    (h : SimpleQRouter.breakLoop v net Q stash = some (Q', stash'))
    (hnd : (dkeys stash).Nodup) (hdisj : ∀ n ∈ net, n ∉ dkeys stash)
    (hndnet : net.Nodup) :
    (dkeys stash').Nodup := by
  induction net generalizing Q stash with
  | nil => simp_all [SimpleQRouter.breakLoop]
  | cons m ns ih =>
    simp only [SimpleQRouter.breakLoop] at h
    cases hq : qget m v Q with
    | none => simp [hq] at h
    | some q =>
      simp only [hq] at h
      cases hset : qset m v 100500 Q with
      | none => simp [hset] at h
      | some Q₁ =>
        simp only [hset] at h
        rw [List.nodup_cons] at hndnet
        refine ih h (nodup_dkeys_dset m q stash hnd) ?_ hndnet.2
        intro n hn
        rw [mem_dkeys_dset]
        push_neg
        refine ⟨fun he => hndnet.1 (he ▸ hn), ?_⟩
        exact hdisj n (List.mem_cons_of_mem m hn)

theorem restoreLoop_notmem {v : Addr} {stash : List (Addr × ℚ)} {Q Q' : QTable}
    {n : Addr}
    (h : SimpleQRouter.restoreLoop v stash Q = some Q')
    (hn : n ∉ dkeys stash) :
    qget n v Q' = qget n v Q := by
  induction stash generalizing Q with
  | nil => simp_all [SimpleQRouter.restoreLoop]
  | cons p rest ih =>
    obtain ⟨m, val⟩ := p
    simp only [SimpleQRouter.restoreLoop] at h
    cases hset : qset m v val Q with
    | none => simp [hset] at h
    | some Q₁ =>
      simp only [hset] at h
      rw [dkeys_cons] at hn
      have hnm : n ≠ m := fun he => hn (he ▸ List.mem_cons_self m _)
      have hns : n ∉ dkeys rest := fun he => hn (List.mem_cons_of_mem m he)
      rw [ih h hns, qget_qset_ne hnm hset]

theorem restoreLoop_mem {v : Addr} {stash : List (Addr × ℚ)} {Q Q' : QTable}
    {n : Addr} {q : ℚ}
    (hnd : (dkeys stash).Nodup)
    (h : SimpleQRouter.restoreLoop v stash Q = some Q')
    (hn : dlookup n stash = some q) :
    qget n v Q' = some q := by
  induction stash generalizing Q with
  | nil => simp [dlookup] at hn
  | cons p rest ih =>
    obtain ⟨m, val⟩ := p
    simp only [SimpleQRouter.restoreLoop] at h
    cases hset : qset m v val Q with
    | none => simp [hset] at h
    | some Q₁ =>
      simp only [hset] at h
      rw [dkeys_cons, List.nodup_cons] at hnd
      by_cases hnm : n = m
      · subst hnm
        simp only [dlookup, if_pos] at hn
        rw [restoreLoop_notmem h hnd.1, qget_qset_self hset, hn]
      · simp only [dlookup, if_neg hnm] at hn
        exact ih hnd.2 h hn

/-! ## observe lemmas -/

theorem observe_pres {st st' : SQState} {smp : Addr × Addr × ℚ}
    (h : SimpleQRouter.observe st smp = some st') :
    st'.broken_link_Qs = st.broken_link_Qs ∧ st'.learning_rate = st.learning_rate := by
  simp only [SimpleQRouter.observe] at h
  cases hq : qget smp.1 smp.2.1 st.Q with
  | none => simp [hq] at h
  | some q =>
    simp only [hq] at h
    cases hset : qset smp.1 smp.2.1 (q + st.learning_rate * (smp.2.2 - q)) st.Q with
    | none => simp [hset] at h
    | some Q' =>
      simp only [hset, Option.map_some', Option.some_inj] at h
      subst h
      exact ⟨rfl, rfl⟩

theorem observeList_pres {samples : List (Addr × Addr × ℚ)} {st st' : SQState}
    (h : SimpleQRouter.observeList samples st = some st') :
    st'.broken_link_Qs = st.broken_link_Qs := by
  induction samples generalizing st with
  | nil => simp_all [SimpleQRouter.observeList]
  | cons smp rest ih =>
    simp only [SimpleQRouter.observeList] at h
    cases ho : SimpleQRouter.observe st smp with
    | none => simp [ho] at h
    | some st₁ =>
      simp only [ho, Option.some_bind] at h
      rw [ih h, (observe_pres ho).1]


/-! ## processEvent lemmas -/

theorem processPkg_forward_eq {σ : Type} (strat : Strategy σ) (s : RouterState)
    (st st₁ st₂ : σ) (t : ℚ) (sender : ARef) (pkg : Pkg)
    (sends : List (ARef × ServiceMsg)) (best : Addr) (ls : LinkInfo)
    (target : ARef) (nd : NeighborInfo)
    (hinit : isInitialized strat s st = true)
    (hrecv : strat.receivePackage s st sender pkg = some (st₁, sends))
    (hdst : pkg.dst ≠ s.addr)
    (hroute : strat.routePackage s st₁ (routeAdd strat s st₁ pkg) = some (st₂, best))
    (hls : dlookup best s.link_states = some ls)
    (halive : ls.alive = true)
    (htgt : dlookup best s.network = some target)
    (hnbr : dlookup best s.neighbors = some nd) :
    processEvent strat s st (.processPkg t sender pkg) =
      .ok ({ s with
              link_states := dset best ({ ls with transfer_time := max s.current_time ls.transfer_time + pkg.size / nd.bandwidth }) s.link_states },
           st₂,
           serviceOuts sends ++ [Output.logLine,
             Output.sendEvent target (Event.incomingPkg
               (max s.current_time ls.transfer_time + pkg.size / nd.bandwidth + nd.latency)
               s.myAddress (routeAdd strat s st₁ pkg))]) := by
  have hdstp : (routeAdd strat s st₁ pkg).dst = pkg.dst := rfl
  have hsize : (routeAdd strat s st₁ pkg).size = pkg.size := rfl
  simp [processEvent, hinit, hrecv, hdstp, hdst, hsize, hroute, hls, halive, htgt, hnbr]

theorem processPkg_done_eq {σ : Type} (strat : Strategy σ) (s : RouterState)
    (st st₁ : σ) (t : ℚ) (sender : ARef) (pkg : Pkg)
    (sends : List (ARef × ServiceMsg))
    (hinit : isInitialized strat s st = true)
    (hrecv : strat.receivePackage s st sender pkg = some (st₁, sends))
    (hdst : pkg.dst = s.addr) :
    processEvent strat s st (.processPkg t sender pkg) =
      .ok (s, st₁, serviceOuts sends ++ [Output.logLine,
        Output.pkgDone s.current_time s.myAddress (routeAdd strat s st₁ pkg)]) := by
  have hdstp : (routeAdd strat s st₁ pkg).dst = pkg.dst := rfl
  simp [processEvent, hinit, hrecv, hdstp, hdst]

/-! ## Claim theorems -/

/-- C8: an event delivered to an uninitialized Router fails with the
"uninitialized" error (and, the embedding being a pure function, no successor
state is produced, so no local state is mutated); conversely, once the router
is initialized, `processEvent` never produces that error, whatever the event
and the strategy hooks do. -/
theorem uninitialized_gate {σ : Type} (strat : Strategy σ) (s : RouterState)
    (st : σ) (ev : Event) :
    processEvent strat s st ev = .error .notInitialized ↔
      isInitialized strat s st = false := by
  cases hinit : isInitialized strat s st with
  | false => simp [processEvent, hinit]
  | true =>
    simp only [hinit, Bool.true_eq_false, iff_false]
    intro hcontra
    cases ev <;> simp [processEvent, hinit] at hcontra <;>
      (repeat' split at hcontra) <;> simp_all

/-- C2: a `ProcessPkgEvent` on an initialized router, destination elsewhere,
routed to a neighbor whose link is alive, computes `transferStart =
max(currentTime, link.transfer_time)`, `transferEnd = transferStart +
pkg.size/bandwidth`, `finish = transferEnd + latency`, sets that link's
`transfer_time` to `transferEnd`, and sends an `IncomingPkgEvent` at `finish`
to that neighbor's actor carrying the package (with its trace row
appended). -/
theorem forward_alive_link {σ : Type} (strat : Strategy σ) (s : RouterState)
    (st st₁ st₂ : σ) (t : ℚ) (sender : ARef) (pkg : Pkg)
    (sends : List (ARef × ServiceMsg)) (best : Addr) (ls : LinkInfo)
    (target : ARef) (nd : NeighborInfo)
    (hinit : isInitialized strat s st = true)
    (hrecv : strat.receivePackage s st sender pkg = some (st₁, sends))
    (hdst : pkg.dst ≠ s.addr)
    (hroute : strat.routePackage s st₁ (routeAdd strat s st₁ pkg) = some (st₂, best))
    (hls : dlookup best s.link_states = some ls)
    (halive : ls.alive = true)
    (htgt : dlookup best s.network = some target)
    (hnbr : dlookup best s.neighbors = some nd) :
    processEvent strat s st (.processPkg t sender pkg) =
      .ok ({ s with
              link_states := dset best ({ ls with transfer_time := max s.current_time ls.transfer_time + pkg.size / nd.bandwidth }) s.link_states },
           st₂,
           serviceOuts sends ++ [Output.logLine,
             Output.sendEvent target (Event.incomingPkg
               (max s.current_time ls.transfer_time + pkg.size / nd.bandwidth + nd.latency)
               s.myAddress (routeAdd strat s st₁ pkg))]) :=
  processPkg_forward_eq strat s st st₁ st₂ t sender pkg sends best ls target nd
    hinit hrecv hdst hroute hls halive htgt hnbr

/-- C2 witness: the fixture router forwards a size-2 package to neighbor 1
(bandwidth 1, latency 1): transfer ends at 2, the incoming event fires
at 3. -/
theorem forward_alive_link_witness :
    processEvent simpleQStrategy sampleRouter sampleQ (.processPkg 0 11 ⟨1, 1, 2, []⟩) =
      .ok ({ sampleRouter with
              link_states := dset 1 ({ transfer_time := max (0:ℚ) 0 + 2 / 1, alive := true } : LinkInfo) sampleRouter.link_states },
           { sampleQ with reward_pending := [(1, (0, 1))] },
           serviceOuts [(11, .simpleReward 1 0 40 1)] ++ [Output.logLine,
             Output.sendEvent 11 (Event.incomingPkg (max (0:ℚ) 0 + 2 / 1 + 1) 10
               (routeAdd simpleQStrategy sampleRouter { sampleQ with reward_pending := [(1, (0, 1))] } ⟨1, 1, 2, []⟩))]) := by
  have h := forward_alive_link simpleQStrategy sampleRouter sampleQ sampleQ
    { sampleQ with reward_pending := [(1, (0, 1))] } 0 11 ⟨1, 1, 2, []⟩
    [(11, .simpleReward 1 0 40 1)] 1 ⟨0, true⟩ 11 ⟨1, 1⟩
    (by simp [isInitialized, simpleQStrategy, sampleRouter])
    (by simp [simpleQStrategy, SimpleQRouter.receivePackage, SimpleQRouter.mkRewardMsg,
          sampleRouter, sampleQ, dlookup, dict_min])
    (by simp [sampleRouter])
    (by simp [simpleQStrategy, SimpleQRouter.routePackage, SimpleQRouter.act,
          SimpleQRouter.getState, sampleRouter, sampleQ, dlookup, dset, dict_min, routeAdd])
    (by simp [sampleRouter, dlookup])
    rfl
    (by simp [sampleRouter, dlookup])
    (by simp [sampleRouter, dlookup])
  simpa [sampleRouter, sampleQ] using h

/-- C4: a `ProcessPkgEvent` whose package is addressed to this router sends
the completion report `PkgDoneMsg(current_time, myAddress, pkg)` to the
overlord; the base state is unchanged (in particular nothing is scheduled on
the local event queue), the report appears exactly once in the outputs, and
no event is forwarded to any other actor. -/
theorem done_exactly_once {σ : Type} (strat : Strategy σ) (s : RouterState)
    (st st₁ : σ) (t : ℚ) (sender : ARef) (pkg : Pkg)
    (sends : List (ARef × ServiceMsg))
    (hinit : isInitialized strat s st = true)
    (hrecv : strat.receivePackage s st sender pkg = some (st₁, sends))
    (hdst : pkg.dst = s.addr) :
    processEvent strat s st (.processPkg t sender pkg) =
      .ok (s, st₁, serviceOuts sends ++ [Output.logLine,
        Output.pkgDone s.current_time s.myAddress (routeAdd strat s st₁ pkg)]) ∧
    (serviceOuts sends ++ [Output.logLine,
        Output.pkgDone s.current_time s.myAddress (routeAdd strat s st₁ pkg)]).countP
      Output.isPkgDone = 1 ∧
    (serviceOuts sends ++ [Output.logLine,
        Output.pkgDone s.current_time s.myAddress (routeAdd strat s st₁ pkg)]).countP
      Output.isSendEvent = 0 := by
  refine ⟨processPkg_done_eq strat s st st₁ t sender pkg sends hinit hrecv hdst, ?_, ?_⟩ <;>
    simp [serviceOuts, List.countP_append, List.countP_map, List.countP_cons,
      Output.isPkgDone, Output.isSendEvent, List.countP_eq_zero]

/-- C4 witness: the fixture router receives a package addressed to itself and
reports it done exactly once, forwarding nothing. -/
theorem done_exactly_once_witness :
    processEvent simpleQStrategy sampleRouter sampleQ (.processPkg 0 11 ⟨1, 0, 2, []⟩) =
      .ok (sampleRouter, sampleQ, serviceOuts [(11, .simpleReward 1 0 0 0)] ++ [Output.logLine,
        Output.pkgDone 0 10 (routeAdd simpleQStrategy sampleRouter sampleQ ⟨1, 0, 2, []⟩)]) ∧
    (serviceOuts [(11, ServiceMsg.simpleReward 1 0 0 0)] ++ [Output.logLine,
        Output.pkgDone 0 10 (routeAdd simpleQStrategy sampleRouter sampleQ ⟨1, 0, 2, []⟩)]).countP
      Output.isPkgDone = 1 ∧
    (serviceOuts [(11, ServiceMsg.simpleReward 1 0 0 0)] ++ [Output.logLine,
        Output.pkgDone 0 10 (routeAdd simpleQStrategy sampleRouter sampleQ ⟨1, 0, 2, []⟩)]).countP
      Output.isSendEvent = 0 := by
  have h := done_exactly_once simpleQStrategy sampleRouter sampleQ sampleQ 0 11
    ⟨1, 0, 2, []⟩ [(11, .simpleReward 1 0 0 0)]
    (by simp [isInitialized, simpleQStrategy, sampleRouter])
    (by simp [simpleQStrategy, SimpleQRouter.receivePackage, SimpleQRouter.mkRewardMsg,
          sampleRouter, sampleQ])
    (by simp [sampleRouter])
  simpa [sampleRouter, sampleQ] using h

/-- C3 counterexample: with bandwidth 1 > 0 and latency 1 ≥ 0, but a second
package of (unconstrained by the claim) negative size −1, two consecutive
forwards onto the same alive link yield finish times `f₁ = 1` and `f₂ = 0`,
so `f₁ ≤ f₂` fails: the claim needs the second package's size to be
non-negative. -/
theorem serialized_no_overtaking_cex :
    processEvent simpleQStrategy sampleRouter sampleQ (.processPkg 0 11 ⟨1, 1, 0, []⟩) =
      .ok (sampleRouter, { sampleQ with reward_pending := [(1, (0, 1))] },
        [.sendService 11 (.simpleReward 1 0 40 1), .logLine,
         .sendEvent 11 (.incomingPkg 1 10 ⟨1, 1, 0, [[0, 0]]⟩)]) ∧
    processEvent simpleQStrategy sampleRouter { sampleQ with reward_pending := [(1, (0, 1))] }
        (.processPkg 0 11 ⟨2, 1, -1, []⟩) =
      .ok ({ sampleRouter with link_states := [(1, ⟨-1, true⟩)] },
        { sampleQ with reward_pending := [(1, (0, 1)), (2, (0, 1))] },
        [.sendService 11 (.simpleReward 2 0 40 1), .logLine,
         .sendEvent 11 (.incomingPkg 0 10 ⟨2, 1, -1, [[0, 0]]⟩)]) ∧
    ¬ ((1 : ℚ) ≤ (0 : ℚ)) := by
  refine ⟨?_, ?_, by norm_num⟩ <;>
    norm_num [processEvent, isInitialized, simpleQStrategy, SimpleQRouter.receivePackage,
      SimpleQRouter.mkRewardMsg, SimpleQRouter.routePackage, SimpleQRouter.act,
      SimpleQRouter.getState, dict_min, dlookup, dset, traceRow, routeAdd, serviceOuts,
      sampleRouter, sampleQ]

/-- C3 (amended with `0 ≤ size₂`): two packages forwarded consecutively by
the same router onto the same alive link — the second processed from the
post-forward state with the clock advanced to `t₂` — produce finish times
with `f₁ ≤ f₂` and `f₁ + size₂/bandwidth ≤ f₂`: single-server serialization
with no overtaking. -/
theorem serialized_no_overtaking {σ : Type} (strat : Strategy σ) (s s₂ : RouterState)
    (st st₁ st₂ st₃ st₄ : σ) (t₁ t₂ : ℚ) (snd₁ snd₂ : ARef) (pkg₁ pkg₂ : Pkg)
    (sends₁ sends₂ : List (ARef × ServiceMsg)) (best : Addr) (ls : LinkInfo)
    (target : ARef) (nd : NeighborInfo)
    (hinit : isInitialized strat s st = true)
    (hrecv₁ : strat.receivePackage s st snd₁ pkg₁ = some (st₁, sends₁))
    (hdst₁ : pkg₁.dst ≠ s.addr)
    (hroute₁ : strat.routePackage s st₁ (routeAdd strat s st₁ pkg₁) = some (st₂, best))
    (hls : dlookup best s.link_states = some ls)
    (halive : ls.alive = true)
    (htgt : dlookup best s.network = some target)
    (hnbr : dlookup best s.neighbors = some nd)
    (hbw : 0 < nd.bandwidth)
    (hlat : 0 ≤ nd.latency)
    (hsz₂ : 0 ≤ pkg₂.size)
    (hs₂ : s₂ = { s with
                   current_time := t₂,
                   link_states := dset best ({ ls with transfer_time := max s.current_time ls.transfer_time + pkg₁.size / nd.bandwidth }) s.link_states })
    (hinit₂ : isInitialized strat s₂ st₂ = true)
    (hrecv₂ : strat.receivePackage s₂ st₂ snd₂ pkg₂ = some (st₃, sends₂))
    (hdst₂ : pkg₂.dst ≠ s.addr)
    (hroute₂ : strat.routePackage s₂ st₃ (routeAdd strat s₂ st₃ pkg₂) = some (st₄, best)) :
    ∃ f₁ f₂,
      processEvent strat s st (.processPkg t₁ snd₁ pkg₁) =
        .ok ({ s with
                link_states := dset best ({ ls with transfer_time := max s.current_time ls.transfer_time + pkg₁.size / nd.bandwidth }) s.link_states },
             st₂,
             serviceOuts sends₁ ++ [Output.logLine,
               Output.sendEvent target (Event.incomingPkg f₁ s.myAddress (routeAdd strat s st₁ pkg₁))]) ∧
      (∃ s₃ outs₂,
        processEvent strat s₂ st₂ (.processPkg t₂ snd₂ pkg₂) = .ok (s₃, st₄, outs₂) ∧
        outs₂.getLast? = some (Output.sendEvent target
          (Event.incomingPkg f₂ s₂.myAddress (routeAdd strat s₂ st₃ pkg₂)))) ∧
      f₁ ≤ f₂ ∧ f₁ + pkg₂.size / nd.bandwidth ≤ f₂ := by
  refine ⟨max s.current_time ls.transfer_time + pkg₁.size / nd.bandwidth + nd.latency,
    max t₂ (max s.current_time ls.transfer_time + pkg₁.size / nd.bandwidth) + pkg₂.size / nd.bandwidth + nd.latency,
    ?_, ?_, ?_, ?_⟩
  · exact processPkg_forward_eq strat s st st₁ st₂ t₁ snd₁ pkg₁ sends₁ best ls target nd
      hinit hrecv₁ hdst₁ hroute₁ hls halive htgt hnbr
  · have hls₂ : dlookup best s₂.link_states =
        some ({ ls with transfer_time := max s.current_time ls.transfer_time + pkg₁.size / nd.bandwidth }) := by
      rw [hs₂]
      exact dlookup_dset_self best _ s.link_states
    have hdst₂' : pkg₂.dst ≠ s₂.addr := by rw [hs₂]; simpa using hdst₂
    have htgt₂ : dlookup best s₂.network = some target := by rw [hs₂]; simpa using htgt
    have hnbr₂ : dlookup best s₂.neighbors = some nd := by rw [hs₂]; simpa using hnbr
    have h2 := processPkg_forward_eq strat s₂ st₂ st₃ st₄ t₂ snd₂ pkg₂ sends₂ best
      ({ ls with transfer_time := max s.current_time ls.transfer_time + pkg₁.size / nd.bandwidth })
      target nd hinit₂ hrecv₂ hdst₂' hroute₂ hls₂ (by simpa using halive) htgt₂ hnbr₂
    refine ⟨_, _, h2, ?_⟩
    have hct : s₂.current_time = t₂ := by rw [hs₂]
    rw [show serviceOuts sends₂ ++ [Output.logLine,
          Output.sendEvent target (Event.incomingPkg
            (max s₂.current_time ({ ls with transfer_time := max s.current_time ls.transfer_time + pkg₁.size / nd.bandwidth } : LinkInfo).transfer_time + pkg₂.size / nd.bandwidth + nd.latency)
            s₂.myAddress (routeAdd strat s₂ st₃ pkg₂))] =
        (serviceOuts sends₂ ++ [Output.logLine]) ++ [Output.sendEvent target (Event.incomingPkg
            (max s₂.current_time ({ ls with transfer_time := max s.current_time ls.transfer_time + pkg₁.size / nd.bandwidth } : LinkInfo).transfer_time + pkg₂.size / nd.bandwidth + nd.latency)
            s₂.myAddress (routeAdd strat s₂ st₃ pkg₂))] from by simp]
    rw [List.getLast?_concat]
    rw [hct]
  · have h1 : max s.current_time ls.transfer_time + pkg₁.size / nd.bandwidth ≤
        max t₂ (max s.current_time ls.transfer_time + pkg₁.size / nd.bandwidth) :=
      le_max_right _ _
    have h2 : 0 ≤ pkg₂.size / nd.bandwidth := div_nonneg hsz₂ hbw.le
    linarith
  · have h1 : max s.current_time ls.transfer_time + pkg₁.size / nd.bandwidth ≤
        max t₂ (max s.current_time ls.transfer_time + pkg₁.size / nd.bandwidth) :=
      le_max_right _ _
    linarith

/-- C3 witness: the fixture router forwards a size-2 then a size-4 package
onto the alive link to neighbor 1; the finish times satisfy both
serialization inequalities. -/
theorem serialized_no_overtaking_witness :
    ∃ f₁ f₂ X,
      processEvent simpleQStrategy sampleRouter sampleQ (.processPkg 0 11 ⟨1, 1, 2, []⟩) = X ∧
      f₁ ≤ f₂ ∧ f₁ + (4 : ℚ) / 1 ≤ f₂ := by
  obtain ⟨f₁, f₂, h1, _h2, h3, h4⟩ :=
    serialized_no_overtaking simpleQStrategy sampleRouter
      { sampleRouter with
          current_time := 0,
          link_states := dset 1 ({ (⟨0, true⟩ : LinkInfo) with transfer_time := max sampleRouter.current_time (⟨0, true⟩ : LinkInfo).transfer_time + (⟨1, 1, 2, []⟩ : Pkg).size / (⟨1, 1⟩ : NeighborInfo).bandwidth }) sampleRouter.link_states }
      sampleQ sampleQ { sampleQ with reward_pending := [(1, (0, 1))] }
      { sampleQ with reward_pending := [(1, (0, 1))] }
      { sampleQ with reward_pending := [(1, (0, 1)), (2, (0, 1))] }
      0 0 11 11 ⟨1, 1, 2, []⟩ ⟨2, 1, 4, []⟩
      [(11, .simpleReward 1 0 40 1)] [(11, .simpleReward 2 0 40 1)]
      1 ⟨0, true⟩ 11 ⟨1, 1⟩
      (by simp [isInitialized, simpleQStrategy, sampleRouter])
      (by simp [simpleQStrategy, SimpleQRouter.receivePackage, SimpleQRouter.mkRewardMsg,
            sampleRouter, sampleQ, dlookup, dict_min])
      (by simp [sampleRouter])
      (by simp [simpleQStrategy, SimpleQRouter.routePackage, SimpleQRouter.act,
            SimpleQRouter.getState, sampleRouter, sampleQ, dlookup, dset, dict_min,
            routeAdd, traceRow])
      (by simp [sampleRouter, dlookup])
      rfl
      (by simp [sampleRouter, dlookup])
      (by simp [sampleRouter, dlookup])
      (by norm_num)
      (by norm_num)
      (by norm_num)
      rfl
      (by simp [isInitialized, simpleQStrategy, sampleRouter])
      (by simp [simpleQStrategy, SimpleQRouter.receivePackage, SimpleQRouter.mkRewardMsg,
            sampleRouter, sampleQ, dlookup, dict_min])
      (by simp [sampleRouter])
      (by simp [simpleQStrategy, SimpleQRouter.routePackage, SimpleQRouter.act,
            SimpleQRouter.getState, sampleRouter, sampleQ, dlookup, dset, dict_min,
            routeAdd, traceRow])
  exact ⟨f₁, f₂, _, h1, h3, by simpa using h4⟩

/-- C9: across the handling of any single event that succeeds, no link's
`transfer_time` decreases, provided the processed package's size is
non-negative and every neighbor's bandwidth is positive: the cursor is a
monotonically advancing high-watermark. -/
theorem transfer_time_monotone {σ : Type} (strat : Strategy σ) (s s' : RouterState)
    (st st' : σ) (ev : Event) (outs : List Output)
    (hsz : ∀ t snd p, ev = .processPkg t snd p → 0 ≤ p.size)
    (hbw : ∀ m d, dlookup m s.neighbors = some d → 0 < d.bandwidth)
    (hrun : processEvent strat s st ev = .ok (s', st', outs))
    (n : Addr) (l₀ l₁ : LinkInfo)
    (h₀ : dlookup n s.link_states = some l₀)
    (h₁ : dlookup n s'.link_states = some l₁) :
    l₀.transfer_time ≤ l₁.transfer_time := by
  by_cases hinit : isInitialized strat s st = true
  case neg =>
    have hini : isInitialized strat s st = false := by simpa using hinit
    simp [processEvent, hini] at hrun
  case pos =>
  cases ev with
  | incomingPkg t sender pkg =>
    rw [processEvent, if_neg (by simp [hinit])] at hrun
    simp only [Except.ok.injEq] at hrun
    obtain ⟨rfl, rfl, rfl⟩ := hrun
    simp only at h₁
    rw [h₀] at h₁
    cases h₁
    exact le_refl _
  | other =>
    rw [processEvent, if_neg (by simp [hinit])] at hrun
    simp only [Except.ok.injEq] at hrun
    obtain ⟨rfl, rfl, rfl⟩ := hrun
    rw [h₀] at h₁
    cases h₁
    exact le_refl _
  | linkBreak m =>
    rw [processEvent, if_neg (by simp [hinit])] at hrun
    cases hls : dlookup m s.link_states with
    | none => simp [hls] at hrun
    | some lm =>
      simp only [hls] at hrun
      cases hhook : strat.breakLink { s with link_states := dset m ({ lm with alive := false }) s.link_states } st m with
      | none => simp [hhook] at hrun
      | some r =>
        simp only [hhook, Except.ok.injEq] at hrun
        obtain ⟨rfl, rfl, rfl⟩ := hrun
        simp only at h₁
        by_cases hnm : n = m
        · subst hnm
          rw [dlookup_dset_self] at h₁
          cases h₁
          rw [h₀] at hls
          cases hls
          exact le_refl _
        · rw [dlookup_dset_of_ne hnm] at h₁
          rw [h₀] at h₁
          cases h₁
          exact le_refl _
  | linkRestore m =>
    rw [processEvent, if_neg (by simp [hinit])] at hrun
    cases hls : dlookup m s.link_states with
    | none => simp [hls] at hrun
    | some lm =>
      simp only [hls] at hrun
      cases hhook : strat.restoreLink { s with link_states := dset m ({ lm with alive := true }) s.link_states } st m with
      | none => simp [hhook] at hrun
      | some r =>
        simp only [hhook, Except.ok.injEq] at hrun
        obtain ⟨rfl, rfl, rfl⟩ := hrun
        simp only at h₁
        by_cases hnm : n = m
        · subst hnm
          rw [dlookup_dset_self] at h₁
          cases h₁
          rw [h₀] at hls
          cases hls
          exact le_refl _
        · rw [dlookup_dset_of_ne hnm] at h₁
          rw [h₀] at h₁
          cases h₁
          exact le_refl _
  | processPkg t sender pkg =>
    have hsz' : 0 ≤ pkg.size := hsz t sender pkg rfl
    rw [processEvent, if_neg (by simp [hinit])] at hrun
    cases hrecv : strat.receivePackage s st sender pkg with
    | none => simp [hrecv] at hrun
    | some r₁ =>
      obtain ⟨st₁, sends⟩ := r₁
      simp only [hrecv] at hrun
      by_cases hdst : (routeAdd strat s st₁ pkg).dst = s.addr
      · rw [if_pos hdst] at hrun
        simp only [Except.ok.injEq] at hrun
        obtain ⟨rfl, rfl, rfl⟩ := hrun
        rw [h₀] at h₁
        cases h₁
        exact le_refl _
      · rw [if_neg hdst] at hrun
        cases hroute : strat.routePackage s st₁ (routeAdd strat s st₁ pkg) with
        | none => simp [hroute] at hrun
        | some r₂ =>
          obtain ⟨st₂, best⟩ := r₂
          simp only [hroute] at hrun
          cases hls : dlookup best s.link_states with
          | none => simp [hls] at hrun
          | some ls =>
            simp only [hls] at hrun
            by_cases halive : ls.alive = true
            · rw [if_pos halive] at hrun
              cases htgt : dlookup best s.network with
              | none => simp [htgt] at hrun
              | some target =>
                cases hnbr : dlookup best s.neighbors with
                | none => simp [htgt, hnbr] at hrun
                | some nd =>
                  simp only [htgt, hnbr, Except.ok.injEq] at hrun
                  obtain ⟨rfl, rfl, rfl⟩ := hrun
                  simp only at h₁
                  have hbw' : 0 < nd.bandwidth := hbw best nd hnbr
                  have hq : 0 ≤ (routeAdd strat s st₁ pkg).size / nd.bandwidth :=
                    div_nonneg (by simpa [routeAdd] using hsz') hbw'.le
                  by_cases hnb : n = best
                  · subst hnb
                    rw [dlookup_dset_self] at h₁
                    cases h₁
                    rw [h₀] at hls
                    cases hls
                    simp only
                    calc l₀.transfer_time ≤ max s.current_time l₀.transfer_time :=
                          le_max_right _ _
                      _ ≤ max s.current_time l₀.transfer_time + (routeAdd strat s st₁ pkg).size / nd.bandwidth := by
                          linarith
                  · rw [dlookup_dset_of_ne hnb] at h₁
                    rw [h₀] at h₁
                    cases h₁
                    exact le_refl _
            · rw [if_neg halive] at hrun
              cases hbl : strat.sendToBrokenLink s st₂ (routeAdd strat s st₁ pkg) with
              | none => simp [hbl] at hrun
              | some r₃ =>
                simp only [hbl, Except.ok.injEq] at hrun
                obtain ⟨rfl, rfl, rfl⟩ := hrun
                rw [h₀] at h₁
                cases h₁
                exact le_refl _

/-- C9 witness: forwarding a size-2 package over the bandwidth-1 link moves
its `transfer_time` from 0 to 2, which is indeed no decrease. -/
theorem transfer_time_monotone_witness :
    ((⟨0, true⟩ : LinkInfo)).transfer_time ≤ ((⟨2, true⟩ : LinkInfo)).transfer_time := by
  refine transfer_time_monotone simpleQStrategy sampleRouter
    { sampleRouter with link_states := [(1, ⟨2, true⟩)] }
    sampleQ { sampleQ with reward_pending := [(1, (0, 1))] }
    (.processPkg 0 11 ⟨1, 1, 2, []⟩)
    [.sendService 11 (.simpleReward 1 0 40 1), .logLine,
     .sendEvent 11 (.incomingPkg 3 10 ⟨1, 1, 2, [[0, 0]]⟩)]
    (by intro t snd p hp; cases hp; norm_num)
    (by intro m d hd; simp [sampleRouter, dlookup] at hd; rw [← hd.2]; norm_num)
    ?_ 1 ⟨0, true⟩ ⟨2, true⟩ (by simp [sampleRouter, dlookup]) (by simp [dlookup])
  norm_num [processEvent, isInitialized, simpleQStrategy, SimpleQRouter.receivePackage,
    SimpleQRouter.mkRewardMsg, SimpleQRouter.routePackage, SimpleQRouter.act,
    SimpleQRouter.getState, dict_min, dlookup, dset, traceRow, routeAdd, serviceOuts,
    sampleRouter, sampleQ]

/-- C1 (code bug): a reward for a packet id with no pending context is
logged, but the handler then still calls `observe(mkSample(message, 0,
sender))`; `SimpleQRouter.mkSample` subscripts the integer fallback `0`
(`prev_state[0]`), so the handler aborts with a `TypeError` instead of
skipping the reward: here the fixture router with an empty pending table
receives a reward for packet id 7 from the known sender 11. -/
theorem missing_reward_context_typeerror :
    SimpleQRouter.receiveServiceMsg sampleRouter sampleQ (.simpleReward 7 5 0 1) 11 =
      .error .typeError := by
  norm_num [SimpleQRouter.receiveServiceMsg, SimpleQRouter.mkSample, sampleRouter,
    sampleQ, dlookup]

theorem breakLoop_mem_isSome {v : Addr} {net : List Addr} {Q Q' : QTable}
    {stash stash' : List (Addr × ℚ)} {n : Addr}
    (h : SimpleQRouter.breakLoop v net Q stash = some (Q', stash'))
    (hn : n ∈ net) : (qget n v Q).isSome := by
  induction net generalizing Q stash with
  | nil => simp at hn
  | cons m ns ih =>
    simp only [SimpleQRouter.breakLoop] at h
    cases hq : qget m v Q with
    | none => simp [hq] at h
    | some q =>
      simp only [hq] at h
      cases hset : qset m v 100500 Q with
      | none => simp [hset] at h
      | some Q₁ =>
        simp only [hset] at h
        rcases List.mem_cons.1 hn with rfl | hns
        · simp [hq]
        · by_cases hnm : n = m
          · subst hnm
            simp [hq]
          · have h2 := ih h hns
            rwa [qget_qset_ne hnm hset] at h2

/-- C5: the reward message a SimpleQRouter sends back on receiving a
forwarded package carries estimate 0 when this node is the destination and
otherwise the minimum Q-value for that destination, along with the
receiver's current time; and a reward received with a pending context
updates `Q[dst][neighbor]` by `learning_rate * (newEstimate − old)` with
`newEstimate = estimate + (cur_time − sent_time)`. -/
theorem reward_protocol {s : RouterState} {st st' : SQState} (sender rsender : ARef)
    (pkg : Pkg) (row : List (Addr × ℚ)) (kmin : Addr) (m q sent_time : ℚ)
    (cur est : ℚ) (d₀ dst : Addr) (pkg_id : Nat) (sa : Addr) (logs : List Output)
    (hrow : dlookup pkg.dst st.Q = some row)
    (hmin : dict_min row = some (kmin, m))
    (hpend : dlookup pkg_id st.reward_pending = some (sent_time, d₀))
    (hinv : dlookup rsender s.network_inv = some sa)
    (hq : qget dst sa st.Q = some q)
    (hrecv : SimpleQRouter.receiveServiceMsg s st (.simpleReward pkg_id cur est dst)
      rsender = .ok (st', logs)) :
    (s.addr = pkg.dst → SimpleQRouter.receivePackage s st sender pkg =
        some (st, [(sender, .simpleReward pkg.id s.current_time 0 pkg.dst)])) ∧
    (s.addr ≠ pkg.dst →
      SimpleQRouter.receivePackage s st sender pkg =
        some (st, [(sender, .simpleReward pkg.id s.current_time m pkg.dst)]) ∧
      (kmin, m) ∈ row ∧ ∀ e ∈ row, m ≤ e.2) ∧
    qget dst sa st'.Q = some (q + st.learning_rate * ((est + (cur - sent_time)) - q)) := by
  refine ⟨?_, ?_, ?_⟩
  · intro h
    simp [SimpleQRouter.receivePackage, SimpleQRouter.mkRewardMsg, h]
  · intro h
    obtain ⟨hmem, hle⟩ := dict_min_spec hmin
    exact ⟨by simp [SimpleQRouter.receivePackage, SimpleQRouter.mkRewardMsg, h, hrow, hmin],
      hmem, hle⟩
  · simp only [SimpleQRouter.receiveServiceMsg, hpend, SimpleQRouter.mkSample, hinv,
      Option.isNone_some] at hrecv
    cases hobs : SimpleQRouter.observe st (dst, sa, est + (cur - sent_time)) with
    | none => rw [hobs] at hrecv; cases hrecv
    | some stN =>
      rw [hobs] at hrecv
      simp only [Except.ok.injEq, Prod.mk.injEq] at hrecv
      obtain ⟨rfl, -⟩ := hrecv
      simp only [SimpleQRouter.observe, hq] at hobs
      cases hset : qset dst sa (q + st.learning_rate * (est + (cur - sent_time) - q)) st.Q with
      | none => simp [hset] at hobs
      | some Q' =>
        simp only [hset, Option.map_some', Option.some_inj] at hobs
        rw [← hobs]
        simpa using qget_qset_self hset

/-- C5 witness: with a pending context `(sent_time 1, dst 1)` for packet 7,
current time 5 and estimate 40, the fixture router updates `Q[1][1]` from 40
to `40 + (1/2)·((40 + (5 − 1)) − 40) = 42`, and its reward messages carry
estimate 0 (own address) or the minimal Q-value 40. -/
theorem reward_protocol_witness :
    ((sampleRouter.addr = (⟨3, 1, 2, []⟩ : Pkg).dst → SimpleQRouter.receivePackage
        sampleRouter { sampleQ with reward_pending := [(7, (1, 1))] } 11 ⟨3, 1, 2, []⟩ =
        some ({ sampleQ with reward_pending := [(7, (1, 1))] },
          [(11, .simpleReward 3 sampleRouter.current_time 0 1)])) ∧
     (sampleRouter.addr ≠ (⟨3, 1, 2, []⟩ : Pkg).dst →
       SimpleQRouter.receivePackage sampleRouter
          { sampleQ with reward_pending := [(7, (1, 1))] } 11 ⟨3, 1, 2, []⟩ =
          some ({ sampleQ with reward_pending := [(7, (1, 1))] },
            [(11, .simpleReward 3 sampleRouter.current_time 40 1)]) ∧
       ((1 : Addr), (40 : ℚ)) ∈ [((1 : Addr), (40 : ℚ))] ∧
       ∀ e ∈ [((1 : Addr), (40 : ℚ))], (40 : ℚ) ≤ e.2) ∧
     qget 1 1 ({ sampleQ with
                  Q := [(0, [(1, 100500)]), (1, [(1, 42)])],
                  reward_pending := [(7, (1, 1))] } : SQState).Q =
       some (40 + ({ sampleQ with reward_pending := [(7, (1, 1))] } : SQState).learning_rate * ((40 + (5 - 1)) - 40))) := by
  refine reward_protocol 11 11 ⟨3, 1, 2, []⟩ [(1, 40)] 1 40 40 1 5 40 1 1 7 1 []
    (by simp [sampleQ, dlookup])
    (by simp [dict_min])
    (by simp [dlookup])
    (by simp [sampleRouter, dlookup])
    (by simp [sampleQ, qget, dlookup])
    ?_
  norm_num [SimpleQRouter.receiveServiceMsg, SimpleQRouter.mkSample, SimpleQRouter.observe,
    qget, qset, dlookup, dset, sampleRouter, sampleQ]

/-- C6: breaking the link to `v` (which stashes every `Q[n][v]` and writes
the sentinel 100500), then applying any sequence of reward updates that
succeeds, then restoring the link, brings `Q[n][v]` back to its exact value
at break time for every destination `n` in the network. -/
theorem break_restore_roundtrip (s : RouterState) (st₀ st₁ st₂ st₃ : SQState)
    (v : Addr) (samples : List (Addr × Addr × ℚ))
    (hnd : (dkeys s.network).Nodup)
    (hb : SimpleQRouter.breakLink s st₀ v = some (st₁, []))
    (ho : SimpleQRouter.observeList samples st₁ = some st₂)
    (hr : SimpleQRouter.restoreLink s st₂ v = some (st₃, []))
    (n : Addr) (hn : n ∈ dkeys s.network) :
    qget n v st₃.Q = qget n v st₀.Q := by
  simp only [SimpleQRouter.breakLink] at hb
  cases hloop : SimpleQRouter.breakLoop v (dkeys s.network) st₀.Q [] with
  | none => rw [hloop] at hb; cases hb
  | some r =>
    obtain ⟨Q₁, stash⟩ := r
    rw [hloop] at hb
    simp only [Option.map_some', Option.some_inj, Prod.mk.injEq] at hb
    obtain ⟨rfl, -⟩ := hb
    have hbq : dlookup v st₂.broken_link_Qs = some stash := by
      rw [observeList_pres ho]
      exact dlookup_dset_self v stash st₀.broken_link_Qs
    simp only [SimpleQRouter.restoreLink, hbq, Option.some_bind] at hr
    cases hloopR : SimpleQRouter.restoreLoop v stash st₂.Q with
    | none => rw [hloopR] at hr; cases hr
    | some Q₃ =>
      rw [hloopR] at hr
      simp only [Option.map_some', Option.some_inj, Prod.mk.injEq] at hr
      obtain ⟨rfl, -⟩ := hr
      have hsome : (qget n v st₀.Q).isSome := breakLoop_mem_isSome hloop hn
      cases hq0 : qget n v st₀.Q with
      | none => rw [hq0] at hsome; cases hsome
      | some qn =>
        have hstash : dlookup n stash = some qn := by
          rw [(breakLoop_mem hnd hloop hn).1, hq0]
        have hkeys : (dkeys stash).Nodup :=
          breakLoop_keys hloop (by simp [dkeys]) (by simp [dkeys]) hnd
        simpa using restoreLoop_mem hkeys hloopR hstash

/-- C6 witness: on the fixture (network keys `[0, 1]`, neighbor 1), breaking
link 1, applying a reward update to `Q[1][1]` while broken, and restoring
returns `Q[1][1]` to its exact pre-break value 40. -/
theorem break_restore_roundtrip_witness :
    qget 1 1 ({ sampleQ with
                 Q := [(0, [(1, 100500)]), (1, [(1, 40)])],
                 broken_link_Qs := [] } : SQState).Q = qget 1 1 sampleQ.Q := by
  refine break_restore_roundtrip sampleRouter sampleQ
    { sampleQ with
       Q := [(0, [(1, 100500)]), (1, [(1, 100500)])],
       broken_link_Qs := [(1, [(0, 100500), (1, 40)])] }
    { sampleQ with
       Q := [(0, [(1, 100500)]), (1, [(1, 50275)])],
       broken_link_Qs := [(1, [(0, 100500), (1, 40)])] }
    { sampleQ with
       Q := [(0, [(1, 100500)]), (1, [(1, 40)])],
       broken_link_Qs := [] }
    1 [(1, 1, 50)]
    (by simp [sampleRouter, dkeys])
    (by norm_num [SimpleQRouter.breakLink, SimpleQRouter.breakLoop, sampleRouter, sampleQ,
          dkeys, qget, qset, dlookup, dset])
    (by norm_num [SimpleQRouter.observeList, SimpleQRouter.observe, sampleQ,
          qget, qset, dlookup, dset])
    (by norm_num [SimpleQRouter.restoreLink, SimpleQRouter.restoreLoop, sampleQ,
          qget, qset, dlookup, dset, derase])
    1 (by simp [sampleRouter, dkeys])

/-- C10: `restoreLink(v)` with no pending stash for `v` raises `KeyError`
(it is not a no-op); and a second consecutive `breakLink(v)` succeeds but
overwrites the stash with the sentinel 100500 for every destination, so the
original pre-break values are no longer recoverable from it. -/
theorem strict_alternation_required (s : RouterState) (st st₀ st₁ : SQState)
    (v : Addr)
    (hnone : dlookup v st.broken_link_Qs = none)
    (hnd : (dkeys s.network).Nodup)
    (hb₁ : SimpleQRouter.breakLink s st₀ v = some (st₁, [])) :
    SimpleQRouter.restoreLink s st v = none ∧
    ∃ st₂ stash₂,
      SimpleQRouter.breakLink s st₁ v = some (st₂, []) ∧
      dlookup v st₂.broken_link_Qs = some stash₂ ∧
      ∀ n ∈ dkeys s.network, dlookup n stash₂ = some 100500 := by
  constructor
  · simp [SimpleQRouter.restoreLink, hnone]
  · simp only [SimpleQRouter.breakLink] at hb₁
    cases hloop : SimpleQRouter.breakLoop v (dkeys s.network) st₀.Q [] with
    | none => rw [hloop] at hb₁; cases hb₁
    | some r =>
      obtain ⟨Q₁, stash⟩ := r
      rw [hloop] at hb₁
      simp only [Option.map_some', Option.some_inj, Prod.mk.injEq] at hb₁
      obtain ⟨rfl, -⟩ := hb₁
      have hsent : ∀ n ∈ dkeys s.network, (qget n v Q₁).isSome := by
        intro n hn
        rw [(breakLoop_mem hnd hloop hn).2]
        simp
      have h2 := @breakLoop_isSome v (dkeys s.network) Q₁ [] hsent
      cases hloop₂ : SimpleQRouter.breakLoop v (dkeys s.network) Q₁ [] with
      | none => rw [hloop₂] at h2; cases h2
      | some r₂ =>
        obtain ⟨Q₂, stash₂⟩ := r₂
        refine ⟨{ Q := Q₂, learning_rate := st₀.learning_rate,
                  broken_link_Qs := dset v stash₂ (dset v stash st₀.broken_link_Qs),
                  reward_pending := st₀.reward_pending }, stash₂, ?_, ?_, ?_⟩
        · simp [SimpleQRouter.breakLink, hloop₂]
        · exact dlookup_dset_self v stash₂ _
        · intro n hn
          rw [(breakLoop_mem hnd hloop₂ hn).1, (breakLoop_mem hnd hloop hn).2]

/-- C10 witness: on the fixture, restoring link 1 with an empty stash table
fails, and a double break leaves a stash recording only the sentinel. -/
theorem strict_alternation_required_witness :
    SimpleQRouter.restoreLink sampleRouter sampleQ 1 = none ∧
    ∃ st₂ stash₂,
      SimpleQRouter.breakLink sampleRouter
        ({ sampleQ with
            Q := [(0, [(1, 100500)]), (1, [(1, 100500)])],
            broken_link_Qs := [(1, [(0, 100500), (1, 40)])] } : SQState) 1 =
        some (st₂, []) ∧
      dlookup 1 st₂.broken_link_Qs = some stash₂ ∧
      ∀ n ∈ dkeys sampleRouter.network, dlookup n stash₂ = some 100500 := by
  refine strict_alternation_required sampleRouter sampleQ sampleQ
    { sampleQ with
       Q := [(0, [(1, 100500)]), (1, [(1, 100500)])],
       broken_link_Qs := [(1, [(0, 100500), (1, 40)])] }
    1 (by simp [sampleQ, dlookup]) (by simp [sampleRouter, dkeys]) ?_
  norm_num [SimpleQRouter.breakLink, SimpleQRouter.breakLoop, sampleRouter, sampleQ,
    dkeys, qget, qset, dlookup, dset]

theorem broadcastTargets_mem (s : RouterState) (sender : ARef) (keys : List Addr)
    (tg : List ARef) (h : broadcastTargets s sender keys = some tg) (r : ARef) :
    r ∈ tg ↔ ∃ n ∈ keys, dlookup n s.network = some r ∧ r ≠ sender := by
  induction keys generalizing tg with
  | nil =>
    simp only [broadcastTargets, Option.some_inj] at h
    subst h
    simp
  | cons k ks ih =>
    simp only [broadcastTargets] at h
    cases hk : dlookup k s.network with
    | none => rw [hk] at h; cases h
    | some ref =>
      rw [hk] at h
      cases hrest : broadcastTargets s sender ks with
      | none => rw [hrest] at h; cases h
      | some rest =>
        rw [hrest] at h
        simp only [Option.map_some', Option.some_inj] at h
        subst h
        by_cases hsr : sender ≠ ref
        · rw [if_pos hsr]
          constructor
          · intro hmem
            rcases List.mem_cons.1 hmem with rfl | hr
            · exact ⟨k, List.mem_cons_self k ks, hk, fun he => hsr (he.symm)⟩
            · obtain ⟨n, hn, hlk, hrs⟩ := (ih rest hrest).1 hr
              exact ⟨n, List.mem_cons_of_mem k hn, hlk, hrs⟩
          · rintro ⟨n, hn, hlk, hrs⟩
            rcases List.mem_cons.1 hn with rfl | hn'
            · rw [hk] at hlk
              cases hlk
              exact List.mem_cons_self _ _
            · exact List.mem_cons_of_mem _ ((ih rest hrest).2 ⟨n, hn', hlk, hrs⟩)
        · rw [if_neg hsr]
          push_neg at hsr
          constructor
          · intro hr
            obtain ⟨n, hn, hlk, hrs⟩ := (ih rest hrest).1 hr
            exact ⟨n, List.mem_cons_of_mem k hn, hlk, hrs⟩
          · rintro ⟨n, hn, hlk, hrs⟩
            rcases List.mem_cons.1 hn with rfl | hn'
            · rw [hk] at hlk
              cases hlk
              exact absurd hsr.symm hrs
            · exact (ih rest hrest).2 ⟨n, hn', hlk, hrs⟩

/-- C7: a received link-state announcement is accepted exactly when its
sequence number is strictly newer than the last seen for its origin (an
origin never seen before counts as newer); a rejected (already-seen)
announcement leaves the local state untouched and is never reflooded; an
accepted one is recorded in the topology data and reflooded as-is to exactly
the neighbors whose actor reference differs from the one it was received
from.  (`processLSAnnouncement` is modelled from the spec: the
`LinkStateHolder` mixin of `router_mixins` is not part of the sources.) -/
theorem receive_flood_sends {s : RouterState} {st st' : LSState} {origin : Addr}
    {seq : Nat} {links : List (Addr × Bool)} {sender : ARef}
    (heq : processLSAnnouncement st origin seq links = (true, st'))
    {sends : List (ARef × ServiceMsg)}
    (hrecv : LinkStateRouter.receiveServiceMsg s st (.lsAnnouncement origin seq links)
      sender = some (st', sends)) (p : ARef × ServiceMsg) :
    p ∈ sends ↔ (p.2 = ServiceMsg.lsAnnouncement origin seq links ∧
      ∃ n ∈ dkeys s.neighbors, dlookup n s.network = some p.1 ∧ p.1 ≠ sender) := by
  simp only [LinkStateRouter.receiveServiceMsg, heq, broadcastAnnouncement,
    eq_self_iff_true, if_true] at hrecv
  cases htg : broadcastTargets s sender (dkeys s.neighbors) with
  | none => rw [htg] at hrecv; cases hrecv
  | some tg =>
    rw [htg] at hrecv
    simp only [Option.map_some', Option.some_inj, Prod.mk.injEq] at hrecv
    obtain ⟨-, rfl⟩ := hrecv
    simp only [List.mem_map]
    constructor
    · rintro ⟨r, hr, rfl⟩
      exact ⟨rfl, (broadcastTargets_mem s sender _ tg htg r).1 hr⟩
    · rintro ⟨hmsg, hex⟩
      obtain ⟨p1, p2⟩ := p
      simp only at hmsg hex
      subst hmsg
      exact ⟨p1, (broadcastTargets_mem s sender _ tg htg p1).2 hex, rfl⟩

/-- C7: a received link-state announcement is accepted exactly when its
sequence number is strictly newer than the last seen for its origin (an
origin never seen before counts as newer); a rejected (already-seen)
announcement leaves the local state untouched and is never reflooded; an
accepted one is recorded in the topology data and reflooded as-is to exactly
the neighbors whose actor reference differs from the one it was received
from.  (`processLSAnnouncement` is modelled from the spec: the
`LinkStateHolder` mixin of `router_mixins` is not part of the sources.) -/
theorem announcement_flood {s : RouterState} {st st' : LSState} (origin : Addr)
    (seq : Nat) (links : List (Addr × Bool)) (sender : ARef) {accepted : Bool}
    (hp : processLSAnnouncement st origin seq links = (accepted, st')) :
    (accepted = true ↔ ∀ last ∈ dlookup origin st.announcements, last < seq) ∧
    (accepted = true → st'.announcements = dset origin seq st.announcements ∧
      st'.graphInfo = dset origin links st.graphInfo) ∧
    (accepted = false → st' = st ∧
      LinkStateRouter.receiveServiceMsg s st (.lsAnnouncement origin seq links) sender =
        some (st, [])) ∧
    (accepted = true → ∀ sends,
      LinkStateRouter.receiveServiceMsg s st (.lsAnnouncement origin seq links) sender =
        some (st', sends) →
      ∀ p : ARef × ServiceMsg, p ∈ sends ↔
        (p.2 = ServiceMsg.lsAnnouncement origin seq links ∧
         ∃ n ∈ dkeys s.neighbors, dlookup n s.network = some p.1 ∧ p.1 ≠ sender)) := by
  cases hl : dlookup origin st.announcements with
  | none =>
    have heq : processLSAnnouncement st origin seq links =
        (true, { st with announcements := dset origin seq st.announcements,
                         graphInfo := dset origin links st.graphInfo }) := by
      simp [processLSAnnouncement, hl]
    rw [heq] at hp
    obtain ⟨rfl, rfl⟩ : accepted = true ∧
        st' = { st with announcements := dset origin seq st.announcements,
                        graphInfo := dset origin links st.graphInfo } := by
      simpa [eq_comm, and_comm] using hp
    refine ⟨by simp [hl], fun _ => ⟨rfl, rfl⟩, by simp, ?_⟩
    intro _ sends hrecv
    exact receive_flood_sends heq hrecv
  | some last =>
    by_cases hlt : last < seq
    · have heq : processLSAnnouncement st origin seq links =
          (true, { st with announcements := dset origin seq st.announcements,
                           graphInfo := dset origin links st.graphInfo }) := by
        simp [processLSAnnouncement, hl, hlt]
      rw [heq] at hp
      obtain ⟨rfl, rfl⟩ : accepted = true ∧
          st' = { st with announcements := dset origin seq st.announcements,
                          graphInfo := dset origin links st.graphInfo } := by
        simpa [eq_comm, and_comm] using hp
      refine ⟨by simp [hl, hlt], fun _ => ⟨rfl, rfl⟩, by simp, ?_⟩
      intro _ sends hrecv
      exact receive_flood_sends heq hrecv
    · have heq : processLSAnnouncement st origin seq links = (false, st) := by
        simp [processLSAnnouncement, hl, hlt]
      rw [heq] at hp
      obtain ⟨rfl, rfl⟩ : accepted = false ∧ st' = st := by
        simpa [eq_comm, and_comm] using hp
      refine ⟨by simp [hl, hlt], by simp, fun _ => ⟨rfl, ?_⟩, by simp⟩
      simp [LinkStateRouter.receiveServiceMsg, heq]

/-- C7 witness: on the fixture router, an announcement from origin 1 with
sequence 3 and no previously seen sequence is accepted, recorded and
reflooded to no one but the neighbor it came from (here: the only neighbor
is the sender, so the reflood set is empty). -/
theorem announcement_flood_witness :
    ((true = true ↔ ∀ last ∈ dlookup 1 (⟨0, [], []⟩ : LSState).announcements, last < 3) ∧
     (true = true → (⟨0, [(1, 3)], [(1, [(0, true)])]⟩ : LSState).announcements =
        dset 1 3 (⟨0, [], []⟩ : LSState).announcements ∧
      (⟨0, [(1, 3)], [(1, [(0, true)])]⟩ : LSState).graphInfo =
        dset 1 [(0, true)] (⟨0, [], []⟩ : LSState).graphInfo) ∧
     (true = false → (⟨0, [(1, 3)], [(1, [(0, true)])]⟩ : LSState) = (⟨0, [], []⟩ : LSState) ∧
      LinkStateRouter.receiveServiceMsg sampleRouter (⟨0, [], []⟩ : LSState)
        (.lsAnnouncement 1 3 [(0, true)]) 11 = some (⟨0, [], []⟩, [])) ∧
     (true = true → ∀ sends,
      LinkStateRouter.receiveServiceMsg sampleRouter (⟨0, [], []⟩ : LSState)
        (.lsAnnouncement 1 3 [(0, true)]) 11 =
        some (⟨0, [(1, 3)], [(1, [(0, true)])]⟩, sends) →
      ∀ p : ARef × ServiceMsg, p ∈ sends ↔
        (p.2 = ServiceMsg.lsAnnouncement 1 3 [(0, true)] ∧
         ∃ n ∈ dkeys sampleRouter.neighbors,
           dlookup n sampleRouter.network = some p.1 ∧ p.1 ≠ 11))) :=
  announcement_flood 1 3 [(0, true)] 11
    (by simp [processLSAnnouncement, dlookup, dset])

end DQN
